import Mathlib

/-!
Verification of ShaderAssist (shaderassist.cpp) against its specification.

The development shallowly embeds the program's pure logic:
* `parseLine` / `parseIniLines` / `parseIniFile` embed `parseIniFile` (lines 134-154),
  including the exact `std::string::find` / `substr` / `size_t` wraparound semantics;
* `compileCommand` embeds the command construction of `compileShader` (lines 72-78);
* `processEntry` / `scanCycle` embed one pass of the directory loop of
  `watchShaders` (lines 93-126), with file times as `time_t` seconds;
* `watchedPath` embeds the wiring in `main` (lines 159 and 187);
* `spirvOutputPathCheck` embeds the absolute-path classification in `main`
  (line 171), tracking out-of-bounds `operator[]` accesses as `none`.
-/

namespace ShaderAssist

/-- SIZE_MAX, the value `std::string::npos` takes on a 64-bit platform. -/
def NPOS : Nat := 2 ^ 64 - 1

/-- Access through `std::string::operator[]`: a position below `size()` reads that
character, position `size()` reads the terminating null character, and any larger
position is out of bounds (undefined behavior), modelled as `none`. -/
def cppIndex (s : List Char) (i : Nat) : Option Char :=
  if h : i < s.length then some (s.get ⟨i, h⟩)
  else if i = s.length then some (Char.ofNat 0)
  else none

/-- Embeds `std::string::find(char)`: the index of the first occurrence, or `NPOS`
when the character does not occur. -/
def strFind : List Char → Char → Nat
  | [], _ => NPOS
  | c :: rest, t =>
    if c = t then 0
    else if strFind rest t = NPOS then NPOS else strFind rest t + 1

/-- Embeds `std::string::substr(pos, count)`: throws `out_of_range` (modelled as
`none`) when `pos` exceeds `size()`, otherwise yields at most `count` characters
starting at `pos`. -/
def substr (s : List Char) (pos count : Nat) : Option (List Char) :=
  if pos > s.length then none else some ((s.drop pos).take count)

/-- Lookup in an association list, modelling `std::map::find` followed by reading
the mapped value. -/
def mapFind {α β : Type} [DecidableEq α] : List (α × β) → α → Option β
  | [], _ => none
  | (k, v) :: rest, key => if k = key then some v else mapFind rest key

/-- Update-or-insert, modelling assignment through `std::map::operator[]`. -/
def mapInsert {α β : Type} [DecidableEq α] : List (α × β) → α → β → List (α × β)
  | [], key, val => [(key, val)]
  | (k, v) :: rest, key, val =>
    if k = key then (k, val) :: rest else (k, v) :: mapInsert rest key val

/-- Read through `std::map::operator[]`: a missing key yields a default-constructed
(empty) value. -/
def mapGetD (kvs : List (List Char × List Char)) (key : List Char) : List Char :=
  (mapFind kvs key).getD []

/-- `struct Config` (lines 29-54).  The field `GenerateMetaData` is never assigned
by `parseIniFile` and never read anywhere, so it is omitted. -/
structure Config where
  compileOnStartup : Bool
  useGoogleSPIRV : Bool
  glslLangValidatorPath : String
  glslcPath : String
  shaderSourcePath : String
  spirvOutputPath : String
  spirvExt : String
  vsExt : String
  fsExt : String
  gsExt : String
  csExt : String
deriving DecidableEq

/-- One iteration of the line loop of `parseIniFile` (lines 138-142): skip lines
whose first character (read through `operator[]`, which yields the null character
for an empty string) is `#`; otherwise store
`line.substr(0, line.find('='))  ↦  line.substr(line.find('=') + 1)`,
where `find` yields `NPOS` when `=` is absent and the `+ 1` wraps around in
`size_t` arithmetic. -/
def parseLine (kvs : List (List Char × List Char)) (line : List Char) :
    Option (List (List Char × List Char)) :=
  match cppIndex line 0 with
  | none => none
  | some c0 =>
    if c0 = '#' then some kvs
    else
      match substr line 0 (strFind line '='),
            substr line ((strFind line '=' + 1) % 2 ^ 64) NPOS with
      | some key, some val => some (mapInsert kvs key val)
      | _, _ => none

/-- The line loop of `parseIniFile` over the whole file (lines 137-142). -/
def parseIniLines (lines : List (List Char)) :
    Option (List (List Char × List Char)) :=
  lines.foldl (fun acc line => acc.bind (fun kvs => parseLine kvs line)) (some [])

/-- `parseIniFile` (lines 134-154): build the key/value map, then read each
configuration value through `operator[]` (missing keys default to the empty
string, and the two booleans compare against `"true"`). -/
def parseIniFile (lines : List (List Char)) : Option Config :=
  (parseIniLines lines).map (fun kvs =>
    { compileOnStartup := mapGetD kvs ("compile_on_startup".toList) == "true".toList
      useGoogleSPIRV := mapGetD kvs ("use_google_spirv".toList) == "true".toList
      glslLangValidatorPath := String.mk (mapGetD kvs ("glsl_lang_validator_path".toList))
      glslcPath := String.mk (mapGetD kvs ("glsl_c_path".toList))
      shaderSourcePath := String.mk (mapGetD kvs ("shader_source_path".toList))
      spirvOutputPath := String.mk (mapGetD kvs ("spirv_output_path".toList))
      spirvExt := String.mk (mapGetD kvs ("spirv_ext".toList))
      vsExt := String.mk (mapGetD kvs ("vs_ext".toList))
      fsExt := String.mk (mapGetD kvs ("fs_ext".toList))
      gsExt := String.mk (mapGetD kvs ("gs_ext".toList))
      csExt := String.mk (mapGetD kvs ("cs_ext".toList)) })

/-- The command string built by `compileShader` (lines 72-78) before the
platform-specific null-sink redirection is appended at the `system` call. -/
def compileCommand (cfg : Config) (filename ext : String) : String :=
  if cfg.useGoogleSPIRV then
    cfg.glslcPath ++ " " ++ filename ++ ext ++ " -o " ++
      cfg.spirvOutputPath ++ "/" ++ filename ++ ext ++ cfg.spirvExt
  else
    cfg.glslLangValidatorPath ++ " - V " ++ filename ++ ext ++ " -o " ++
      cfg.spirvOutputPath ++ "/" ++ filename ++ ext ++ cfg.spirvExt

/-- The PrimaryCompiler command-line form stated by the specification
(section 4.3): `<validatorPath> -V <basename><ext> -o <outputPath>/<basename><ext><outputExt>`. -/
def specPrimaryCommand (cfg : Config) (filename ext : String) : String :=
  cfg.glslLangValidatorPath ++ " -V " ++ filename ++ ext ++ " -o " ++
    cfg.spirvOutputPath ++ "/" ++ filename ++ ext ++ cfg.spirvExt

/-- The AlternateCompiler command-line form stated by the specification
(section 4.3): `<glslcPath> <basename><ext> -o <outputPath>/<basename><ext><outputExt>`. -/
def specAlternateCommand (cfg : Config) (filename ext : String) : String :=
  cfg.glslcPath ++ " " ++ filename ++ ext ++ " -o " ++
    cfg.spirvOutputPath ++ "/" ++ filename ++ ext ++ cfg.spirvExt

/-- The directory path `main` hands to the watcher thread: `currentPath` is
captured from `fs::current_path()` at line 159 and passed verbatim at line 187;
the parsed configuration (in particular `ShaderSourcePath`) plays no part. -/
def watchedPath (currentPath : String) (cfg : Config) : String :=
  currentPath

/-- The startup classification of `config.SPIRVOutputPath` in `main` (line 171):
`s[0] != '/' && s[0] != '\\' && s[1] != ':'` with C++ short-circuit evaluation;
`none` records that an `operator[]` access was out of bounds. -/
def spirvOutputPathCheck (s : List Char) : Option Bool :=
  match cppIndex s 0 with
  | none => none
  | some c0 =>
    if c0 = '/' then some false
    else if c0 = '\\' then some false
    else
      match cppIndex s 1 with
      | none => none
      | some c1 => if c1 = ':' then some false else some true

/-- One entry of the watched directory as observed during a scan: its path
identity (the `std::map` key), stem and extension, whether it is a regular file,
and the `fs::last_write_time` value converted to `time_t` seconds. -/
structure DirEntry where
  path : String
  stem : String
  ext : String
  isRegularFile : Bool
  mtime : Int
deriving DecidableEq

/-- The watch map `sShaderEntries`: file path to last-write time (seconds). -/
abbrev WatchEntries := List (String × Int)

/-- The mutable state of the watch loop: `sShaderEntries`, `sFirstIteration`
and `sRecompile` as observed at the start of a cycle. -/
structure WatchLoopState where
  entries : WatchEntries
  firstIteration : Bool
  recompile : Bool
deriving DecidableEq

/-- The array `validFileExts` built each cycle (line 98). -/
def validFileExts (cfg : Config) : List String :=
  [cfg.vsExt, cfg.fsExt, cfg.gsExt, cfg.csExt]

/-- The body of the directory-iterator loop of `watchShaders` (lines 93-124) for
one entry: skip non-regular files and unrecognized extensions; for a tracked file
compile and restamp when `current - stored > 1` seconds or a recompile is forced;
for a new file insert its timestamp and compile unless this is the first
iteration and `CompileOnStartup` is off.  Returns the updated map and the compile
invocations (as the triggering entries) issued for this entry. -/
def processEntry (cfg : Config) (first recompile : Bool) (ws : WatchEntries)
    (e : DirEntry) : WatchEntries × List DirEntry :=
  if e.isRegularFile = true then
    if e.ext ∈ validFileExts cfg then
      match mapFind ws e.path with
      | some lastWriteTime =>
        if e.mtime - lastWriteTime > 1 ∨ recompile = true then
          (mapInsert ws e.path e.mtime, [e])
        else
          (ws, [])
      | none =>
        if first = false ∨ cfg.compileOnStartup = true then
          (mapInsert ws e.path e.mtime, [e])
        else
          (mapInsert ws e.path e.mtime, [])
    else (ws, [])
  else (ws, [])

/-- Folding step accumulating the watch map and the compile log across the
directory listing. -/
def scanStep (cfg : Config) (first recompile : Bool)
    (acc : WatchEntries × List DirEntry) (e : DirEntry) :
    WatchEntries × List DirEntry :=
  ((processEntry cfg first recompile acc.1 e).1,
    acc.2 ++ (processEntry cfg first recompile acc.1 e).2)

/-- One full cycle of `watchShaders` (lines 93-126): process every entry of the
listing in order, then clear `sFirstIteration` and `sRecompile`. -/
def scanCycle (cfg : Config) (listing : List DirEntry) (st : WatchLoopState) :
    WatchLoopState × List DirEntry :=
  (⟨(listing.foldl (scanStep cfg st.firstIteration st.recompile) (st.entries, [])).1,
    false, false⟩,
   (listing.foldl (scanStep cfg st.firstIteration st.recompile) (st.entries, [])).2)

/-- The effect of one directory entry on the watch map restricted to its own
path, and the compiles it issues: a sound summary of `processEntry` used to state
the fold lemmas. -/
def entryEffect (cfg : Config) (first recompile : Bool) (old : Option Int)
    (e : DirEntry) : Option Int × List DirEntry :=
  if e.isRegularFile = true ∧ e.ext ∈ validFileExts cfg then
    match old with
    | some t =>
      if e.mtime - t > 1 ∨ recompile = true then (some e.mtime, [e])
      else (some t, [])
    | none =>
      (some e.mtime,
        if first = false ∨ cfg.compileOnStartup = true then [e] else [])
  else (old, [])

/-- The sublist of compile invocations issued for a given path. -/
def pathCompiles : List DirEntry → String → List DirEntry
  | [], _ => []
  | d :: rest, p => if d.path = p then d :: pathCompiles rest p else pathCompiles rest p

/-! ### Association-list lemmas -/

theorem mapFind_mapInsert_self {α β : Type} [DecidableEq α]
    (m : List (α × β)) (key : α) (val : β) :
    mapFind (mapInsert m key val) key = some val := by
  induction m with
  | nil => simp [mapInsert, mapFind]
  | cons kv rest ih =>
    obtain ⟨k, v⟩ := kv
    by_cases h : k = key
    · simp [mapInsert, mapFind, h]
    · simp [mapInsert, mapFind, h, ih]

theorem mapFind_mapInsert_ne {α β : Type} [DecidableEq α]
    (m : List (α × β)) (p key : α) (val : β) (h : p ≠ key) :
    mapFind (mapInsert m key val) p = mapFind m p := by
  have hkp : ¬(key = p) := fun hh => h hh.symm
  induction m with
  | nil => simp [mapInsert, mapFind, hkp]
  | cons kv rest ih =>
    obtain ⟨k, v⟩ := kv
    by_cases hk : k = key
    · subst hk
      simp [mapInsert, mapFind, hkp]
    · simp [mapInsert, mapFind, hk, ih]

theorem pathCompiles_append (cs1 cs2 : List DirEntry) (p : String) :
    pathCompiles (cs1 ++ cs2) p = pathCompiles cs1 p ++ pathCompiles cs2 p := by
  induction cs1 with
  | nil => rfl
  | cons d cs ih =>
    by_cases h : d.path = p <;> simp [pathCompiles, h, ih]

/-! ### Characterization of `processEntry` by `entryEffect` -/

theorem processEntry_find_self (cfg : Config) (f r : Bool) (ws : WatchEntries)
    (e : DirEntry) :
    mapFind (processEntry cfg f r ws e).1 e.path =
      (entryEffect cfg f r (mapFind ws e.path) e).1 := by
  by_cases hreg : e.isRegularFile = true
  · by_cases hext : e.ext ∈ validFileExts cfg
    · cases hfind : mapFind ws e.path with
      | some t =>
        by_cases hc : e.mtime - t > 1 ∨ r = true
        · simp [processEntry, entryEffect, hreg, hext, hfind, hc,
            mapFind_mapInsert_self]
        · simp [processEntry, entryEffect, hreg, hext, hfind, hc]
      | none =>
        by_cases hc : f = false ∨ cfg.compileOnStartup = true
        · simp [processEntry, entryEffect, hreg, hext, hfind, hc,
            mapFind_mapInsert_self]
        · simp [processEntry, entryEffect, hreg, hext, hfind, hc,
            mapFind_mapInsert_self]
    · simp [processEntry, entryEffect, hreg, hext]
  · simp [processEntry, entryEffect, hreg]

theorem processEntry_snd (cfg : Config) (f r : Bool) (ws : WatchEntries)
    (e : DirEntry) :
    (processEntry cfg f r ws e).2 =
      (entryEffect cfg f r (mapFind ws e.path) e).2 := by
  by_cases hreg : e.isRegularFile = true
  · by_cases hext : e.ext ∈ validFileExts cfg
    · cases hfind : mapFind ws e.path with
      | some t =>
        by_cases hc : e.mtime - t > 1 ∨ r = true
        · simp [processEntry, entryEffect, hreg, hext, hfind, hc]
        · simp [processEntry, entryEffect, hreg, hext, hfind, hc]
      | none =>
        by_cases hc : f = false ∨ cfg.compileOnStartup = true
        · simp [processEntry, entryEffect, hreg, hext, hfind, hc]
        · simp [processEntry, entryEffect, hreg, hext, hfind, hc]
    · simp [processEntry, entryEffect, hreg, hext]
  · simp [processEntry, entryEffect, hreg]

theorem processEntry_find_ne (cfg : Config) (f r : Bool) (ws : WatchEntries)
    (e : DirEntry) (p : String) (hp : p ≠ e.path) :
    mapFind (processEntry cfg f r ws e).1 p = mapFind ws p := by
  have hins := mapFind_mapInsert_ne ws p e.path e.mtime hp
  by_cases hreg : e.isRegularFile = true
  · by_cases hext : e.ext ∈ validFileExts cfg
    · cases hfind : mapFind ws e.path with
      | some t =>
        by_cases hc : e.mtime - t > 1 ∨ r = true
        · simp [processEntry, hreg, hext, hfind, hc, hins]
        · simp [processEntry, hreg, hext, hfind, hc]
      | none =>
        by_cases hc : f = false ∨ cfg.compileOnStartup = true
        · simp [processEntry, hreg, hext, hfind, hc, hins]
        · simp [processEntry, hreg, hext, hfind, hc, hins]
    · simp [processEntry, hreg, hext]
  · simp [processEntry, hreg]

theorem entryEffect_cases (cfg : Config) (f r : Bool) (old : Option Int)
    (e : DirEntry) :
    (entryEffect cfg f r old e).2 = [] ∨
      ((entryEffect cfg f r old e).2 = [e] ∧ e.isRegularFile = true ∧
        e.ext ∈ validFileExts cfg) := by
  by_cases hre : e.isRegularFile = true ∧ e.ext ∈ validFileExts cfg
  · cases old with
    | some t =>
      by_cases hc : e.mtime - t > 1 ∨ r = true
      · exact Or.inr ⟨by simp [entryEffect, hre, hc], hre⟩
      · exact Or.inl (by simp [entryEffect, hre, hc])
    | none =>
      by_cases hc : f = false ∨ cfg.compileOnStartup = true
      · exact Or.inr ⟨by simp [entryEffect, hre, hc], hre⟩
      · exact Or.inl (by simp [entryEffect, hre, hc])
  · exact Or.inl (by simp [entryEffect, hre])

theorem pathCompiles_processEntry_ne (cfg : Config) (f r : Bool)
    (ws : WatchEntries) (e : DirEntry) (p : String) (hp : e.path ≠ p) :
    pathCompiles (processEntry cfg f r ws e).2 p = [] := by
  rw [processEntry_snd]
  rcases entryEffect_cases cfg f r (mapFind ws e.path) e with h | h
  · rw [h]; rfl
  · rw [h.1]
    simp [pathCompiles, hp]

theorem pathCompiles_processEntry_self (cfg : Config) (f r : Bool)
    (ws : WatchEntries) (e : DirEntry) :
    pathCompiles (processEntry cfg f r ws e).2 e.path =
      (processEntry cfg f r ws e).2 := by
  rw [processEntry_snd]
  rcases entryEffect_cases cfg f r (mapFind ws e.path) e with h | h
  · rw [h]; rfl
  · rw [h.1]
    simp [pathCompiles]

theorem processEntry_no_effect (cfg : Config) (f r : Bool) (ws : WatchEntries)
    (e : DirEntry)
    (h : entryEffect cfg f r (mapFind ws e.path) e = (mapFind ws e.path, [])) :
    processEntry cfg f r ws e = (ws, []) := by
  by_cases hreg : e.isRegularFile = true
  · by_cases hext : e.ext ∈ validFileExts cfg
    · cases hfind : mapFind ws e.path with
      | some t =>
        by_cases hc : e.mtime - t > 1 ∨ r = true
        · rw [hfind] at h
          simp [entryEffect, hreg, hext, hc] at h
        · simp [processEntry, hreg, hext, hfind, hc]
      | none =>
        rw [hfind] at h
        simp [entryEffect, hreg, hext] at h
    · simp [processEntry, hreg, hext]
  · simp [processEntry, hreg]

/-! ### Fold lemmas for one scan cycle -/

theorem foldl_untouched (cfg : Config) (f r : Bool) (p : String)
    (L : List DirEntry) :
    ∀ acc : WatchEntries × List DirEntry,
      (∀ e ∈ L, e.path = p →
        ¬(e.isRegularFile = true ∧ e.ext ∈ validFileExts cfg)) →
      mapFind (L.foldl (scanStep cfg f r) acc).1 p = mapFind acc.1 p ∧
      pathCompiles (L.foldl (scanStep cfg f r) acc).2 p = pathCompiles acc.2 p := by
  induction L with
  | nil => intro acc _; exact ⟨rfl, rfl⟩
  | cons d L ih =>
    intro acc h
    rw [List.foldl_cons]
    obtain ⟨h1, h2⟩ :=
      ih (scanStep cfg f r acc d) (fun e he hp => h e (List.mem_cons_of_mem _ he) hp)
    have hstep1 : mapFind (scanStep cfg f r acc d).1 p = mapFind acc.1 p := by
      by_cases hdp : d.path = p
      · have hskip := h d (List.mem_cons_self _ _) hdp
        rcases entryEffect_cases cfg f r (mapFind acc.1 d.path) d with hcs | hcs
        · by_cases hreg : d.isRegularFile = true
          · by_cases hext : d.ext ∈ validFileExts cfg
            · exact absurd ⟨hreg, hext⟩ hskip
            · show mapFind (processEntry cfg f r acc.1 d).1 p = mapFind acc.1 p
              simp [processEntry, hreg, hext]
          · show mapFind (processEntry cfg f r acc.1 d).1 p = mapFind acc.1 p
            simp [processEntry, hreg]
        · exact absurd hcs.2 hskip
      · exact processEntry_find_ne cfg f r acc.1 d p (fun hh => hdp hh.symm)
    have hstep2 : pathCompiles (scanStep cfg f r acc d).2 p = pathCompiles acc.2 p := by
      show pathCompiles (acc.2 ++ (processEntry cfg f r acc.1 d).2) p = _
      rw [pathCompiles_append]
      by_cases hdp : d.path = p
      · have hskip := h d (List.mem_cons_self _ _) hdp
        rcases entryEffect_cases cfg f r (mapFind acc.1 d.path) d with hcs | hcs
        · rw [processEntry_snd, hcs]
          simp [pathCompiles]
        · exact absurd hcs.2 hskip
      · rw [pathCompiles_processEntry_ne cfg f r acc.1 d p hdp]
        simp
    exact ⟨h1.trans hstep1, h2.trans hstep2⟩

theorem foldl_at_entry (cfg : Config) (f r : Bool) (e : DirEntry)
    (L : List DirEntry) :
    ∀ acc : WatchEntries × List DirEntry, e ∈ L → (L.map DirEntry.path).Nodup →
      mapFind (L.foldl (scanStep cfg f r) acc).1 e.path =
        (entryEffect cfg f r (mapFind acc.1 e.path) e).1 ∧
      pathCompiles (L.foldl (scanStep cfg f r) acc).2 e.path =
        pathCompiles acc.2 e.path ++
          (entryEffect cfg f r (mapFind acc.1 e.path) e).2 := by
  induction L with
  | nil => intro acc hmem _; cases hmem
  | cons d L ih =>
    intro acc hmem hnodup
    rw [List.map_cons, List.nodup_cons] at hnodup
    obtain ⟨hdnot, hnodupL⟩ := hnodup
    rw [List.foldl_cons]
    rcases List.mem_cons.mp hmem with he | he
    · subst he
      have hrest : ∀ e' ∈ L, e'.path = e.path →
          ¬(e'.isRegularFile = true ∧ e'.ext ∈ validFileExts cfg) := by
        intro e' he' hp _
        exact hdnot (hp ▸ List.mem_map_of_mem DirEntry.path he')
      obtain ⟨h1, h2⟩ := foldl_untouched cfg f r e.path L (scanStep cfg f r acc e) hrest
      refine ⟨?_, ?_⟩
      · rw [h1]
        exact processEntry_find_self cfg f r acc.1 e
      · rw [h2]
        show pathCompiles (acc.2 ++ (processEntry cfg f r acc.1 e).2) e.path = _
        rw [pathCompiles_append, pathCompiles_processEntry_self,
          processEntry_snd]
    · have hne : d.path ≠ e.path :=
        fun hh => hdnot (hh ▸ List.mem_map_of_mem DirEntry.path he)
      obtain ⟨h1, h2⟩ := ih (scanStep cfg f r acc d) he hnodupL
      have hfind : mapFind (scanStep cfg f r acc d).1 e.path = mapFind acc.1 e.path :=
        processEntry_find_ne cfg f r acc.1 d e.path (Ne.symm hne)
      refine ⟨by rw [h1, hfind], ?_⟩
      rw [h2, hfind]
      show pathCompiles (acc.2 ++ (processEntry cfg f r acc.1 d).2) e.path ++ _ = _
      rw [pathCompiles_append, pathCompiles_processEntry_ne cfg f r acc.1 d e.path hne]
      simp

theorem foldl_no_effect (cfg : Config) (f r : Bool) (L : List DirEntry) :
    ∀ acc : WatchEntries × List DirEntry,
      (∀ e ∈ L, entryEffect cfg f r (mapFind acc.1 e.path) e =
        (mapFind acc.1 e.path, [])) →
      L.foldl (scanStep cfg f r) acc = acc := by
  induction L with
  | nil => intro acc _; rfl
  | cons d L ih =>
    intro acc h
    rw [List.foldl_cons]
    have hd : processEntry cfg f r acc.1 d = (acc.1, []) :=
      processEntry_no_effect cfg f r acc.1 d (h d (List.mem_cons_self _ _))
    have hstep : scanStep cfg f r acc d = acc := by
      show ((processEntry cfg f r acc.1 d).1,
        acc.2 ++ (processEntry cfg f r acc.1 d).2) = acc
      rw [hd]
      simp
    rw [hstep]
    exact ih acc (fun e he => h e (List.mem_cons_of_mem _ he))

theorem scanCycle_entries (cfg : Config) (listing : List DirEntry)
    (st : WatchLoopState) :
    (scanCycle cfg listing st).1.entries =
      (listing.foldl (scanStep cfg st.firstIteration st.recompile)
        (st.entries, [])).1 := rfl

theorem scanCycle_snd (cfg : Config) (listing : List DirEntry)
    (st : WatchLoopState) :
    (scanCycle cfg listing st).2 =
      (listing.foldl (scanStep cfg st.firstIteration st.recompile)
        (st.entries, [])).2 := rfl

/-! ### The claims about the watch cycle -/

/-- C3: for a tracked file (already a key of the watch map) observed in a cycle,
a compile is triggered and the stored timestamp is overwritten with the current
modification time exactly when the elapsed time since the stored timestamp
exceeds 1 second or the force-recompile flag is set; otherwise no compile is
triggered for it and the stored timestamp is unchanged. -/
theorem spec_C3_tracked_file (cfg : Config) (listing : List DirEntry)
    (st : WatchLoopState) (e : DirEntry) (t : Int)
    (hmem : e ∈ listing) (hnodup : (listing.map DirEntry.path).Nodup)
    (hreg : e.isRegularFile = true) (hext : e.ext ∈ validFileExts cfg)
    (htracked : mapFind st.entries e.path = some t) :
    (e.mtime - t > 1 ∨ st.recompile = true →
      mapFind (scanCycle cfg listing st).1.entries e.path = some e.mtime ∧
      pathCompiles (scanCycle cfg listing st).2 e.path = [e]) ∧
    (¬(e.mtime - t > 1 ∨ st.recompile = true) →
      mapFind (scanCycle cfg listing st).1.entries e.path = some t ∧
      pathCompiles (scanCycle cfg listing st).2 e.path = []) := by
  obtain ⟨h1, h2⟩ := foldl_at_entry cfg st.firstIteration st.recompile e listing
    (st.entries, []) hmem hnodup
  constructor
  · intro hcond
    have heff : entryEffect cfg st.firstIteration st.recompile
        (mapFind st.entries e.path) e = (some e.mtime, [e]) := by
      rw [htracked]
      simp [entryEffect, hreg, hext, hcond]
    constructor
    · rw [scanCycle_entries, h1, heff]
    · rw [scanCycle_snd, h2, heff]
      rfl
  · intro hcond
    have heff : entryEffect cfg st.firstIteration st.recompile
        (mapFind st.entries e.path) e = (some t, []) := by
      rw [htracked]
      simp [entryEffect, hreg, hext, hcond]
    constructor
    · rw [scanCycle_entries, h1, heff]
    · rw [scanCycle_snd, h2, heff]
      rfl

/-- C4: a file with a recognized extension that is not yet tracked on the very
first cycle gets a watch entry holding its real current modification time; it is
compiled on cycle 1 exactly when `compileOnStartup` is set (no compile when the
flag is off, exactly one compile when it is on). -/
theorem spec_C4_first_cycle (cfg : Config) (listing : List DirEntry)
    (st : WatchLoopState) (e : DirEntry)
    (hfirst : st.firstIteration = true)
    (hmem : e ∈ listing) (hnodup : (listing.map DirEntry.path).Nodup)
    (hreg : e.isRegularFile = true) (hext : e.ext ∈ validFileExts cfg)
    (hnew : mapFind st.entries e.path = none) :
    mapFind (scanCycle cfg listing st).1.entries e.path = some e.mtime ∧
    (cfg.compileOnStartup = false →
      pathCompiles (scanCycle cfg listing st).2 e.path = []) ∧
    (cfg.compileOnStartup = true →
      pathCompiles (scanCycle cfg listing st).2 e.path = [e]) := by
  obtain ⟨h1, h2⟩ := foldl_at_entry cfg st.firstIteration st.recompile e listing
    (st.entries, []) hmem hnodup
  refine ⟨?_, ?_, ?_⟩
  · rw [scanCycle_entries, h1, hnew]
    simp [entryEffect, hreg, hext]
  · intro hcos
    have heff : entryEffect cfg st.firstIteration st.recompile
        (mapFind st.entries e.path) e = (some e.mtime, []) := by
      rw [hnew]
      simp [entryEffect, hreg, hext, hfirst, hcos]
    rw [scanCycle_snd, h2, heff]
    rfl
  · intro hcos
    have heff : entryEffect cfg st.firstIteration st.recompile
        (mapFind st.entries e.path) e = (some e.mtime, [e]) := by
      rw [hnew]
      simp [entryEffect, hreg, hext, hcos]
    rw [scanCycle_snd, h2, heff]
    rfl

/-- C5: when the force-recompile flag is set at the start of a cycle, every
tracked, extension-matching regular file present in the listing is compiled
exactly once during that cycle, and after the cycle both the force-recompile
flag and the first-cycle marker are false (they are cleared unconditionally at
the end of every cycle, even for an empty listing, so the first-cycle marker is
never true again). -/
theorem spec_C5_force_recompile (cfg : Config) (listing : List DirEntry)
    (st : WatchLoopState)
    (hforce : st.recompile = true)
    (hnodup : (listing.map DirEntry.path).Nodup) :
    (∀ e ∈ listing, e.isRegularFile = true → e.ext ∈ validFileExts cfg →
      (∃ t, mapFind st.entries e.path = some t) →
      pathCompiles (scanCycle cfg listing st).2 e.path = [e]) ∧
    (scanCycle cfg listing st).1.recompile = false ∧
    (scanCycle cfg listing st).1.firstIteration = false := by
  refine ⟨?_, rfl, rfl⟩
  rintro e hmem hreg hext ⟨t, ht⟩
  obtain ⟨h1, h2⟩ := foldl_at_entry cfg st.firstIteration st.recompile e listing
    (st.entries, []) hmem hnodup
  have heff : entryEffect cfg st.firstIteration st.recompile
      (mapFind st.entries e.path) e = (some e.mtime, [e]) := by
    rw [ht]
    simp [entryEffect, hreg, hext, hforce]
  rw [scanCycle_snd, h2, heff]
  rfl

/-- C6: running a second cycle over the same listing (same files, same
modification times) directly after a first cycle, with no force-recompile
request in between, produces zero compile invocations. -/
theorem spec_C6_idempotent (cfg : Config) (listing : List DirEntry)
    (st : WatchLoopState)
    (hnodup : (listing.map DirEntry.path).Nodup) :
    (scanCycle cfg listing (scanCycle cfg listing st).1).2 = [] := by
  have hrec : (scanCycle cfg listing st).1.recompile = false := rfl
  have hfold : listing.foldl
      (scanStep cfg (scanCycle cfg listing st).1.firstIteration
        (scanCycle cfg listing st).1.recompile)
      ((scanCycle cfg listing st).1.entries, []) =
      ((scanCycle cfg listing st).1.entries, []) := by
    apply foldl_no_effect
    intro e hmem
    by_cases hre : e.isRegularFile = true ∧ e.ext ∈ validFileExts cfg
    · have h1 : mapFind (scanCycle cfg listing st).1.entries e.path =
          (entryEffect cfg st.firstIteration st.recompile
            (mapFind st.entries e.path) e).1 :=
        (foldl_at_entry cfg st.firstIteration st.recompile e listing
          (st.entries, []) hmem hnodup).1
      obtain ⟨t', ht', hle⟩ : ∃ t',
          mapFind (scanCycle cfg listing st).1.entries e.path = some t' ∧
          e.mtime - t' ≤ 1 := by
        cases hfind : mapFind st.entries e.path with
        | none =>
          rw [hfind] at h1
          refine ⟨e.mtime, ?_, by omega⟩
          rw [h1]
          simp [entryEffect, hre.1, hre.2]
        | some t =>
          rw [hfind] at h1
          by_cases hc : e.mtime - t > 1 ∨ st.recompile = true
          · refine ⟨e.mtime, ?_, by omega⟩
            rw [h1]
            simp [entryEffect, hre.1, hre.2, hc]
          · refine ⟨t, ?_, ?_⟩
            · rw [h1]
              simp [entryEffect, hre.1, hre.2, hc]
            · push_neg at hc
              exact hc.1
      have hnc : ¬(e.mtime - t' > 1 ∨
          (scanCycle cfg listing st).1.recompile = true) := by
        rintro (hgt | hrc)
        · exact absurd hgt (not_lt.mpr hle)
        · rw [hrec] at hrc
          exact Bool.false_ne_true hrc
      rw [ht']
      simp [entryEffect, hre.1, hre.2, hnc]
    · simp [entryEffect, hre]
  rw [scanCycle_snd, hfold]

/-- C7: a path all of whose observed directory entries have an extension outside
the recognized set is never inserted into the watch map (its lookup is
unchanged by a cycle) and never triggers a compile, whatever the cycle's state,
modification times or force-recompile flag. -/
theorem spec_C7_unrecognized_ext (cfg : Config) (listing : List DirEntry)
    (st : WatchLoopState) (p : String)
    (h : ∀ e ∈ listing, e.path = p → e.ext ∉ validFileExts cfg) :
    mapFind (scanCycle cfg listing st).1.entries p = mapFind st.entries p ∧
    pathCompiles (scanCycle cfg listing st).2 p = [] := by
  obtain ⟨h1, h2⟩ := foldl_untouched cfg st.firstIteration st.recompile p listing
    (st.entries, []) (fun e he hp hre => h e he hp hre.2)
  exact ⟨h1, h2.trans rfl⟩

/-! ### Lemmas about the ini parser -/

theorem strFind_of_not_mem (s : List Char) (c : Char) (h : c ∉ s) :
    strFind s c = NPOS := by
  induction s with
  | nil => rfl
  | cons d s ih =>
    have hd : ¬(d = c) := fun hh => h (hh ▸ List.mem_cons_self d s)
    simp [strFind, hd, ih (fun hh => h (List.mem_cons_of_mem _ hh))]

theorem cppIndex_zero (s : List Char) :
    cppIndex s 0 = some (s.headD (Char.ofNat 0)) := by
  cases s with
  | nil => rfl
  | cons c s => simp [cppIndex]

/-! ### The claims about parsing and program wiring -/

/-- C8 (counterexample): for the configuration line "abc", which contains no `=`,
parsing succeeds but the stored value for that line is "abc" — the whole line —
and not the empty string. -/
theorem spec_C8_counterexample :
    parseLine [] ("abc".toList) = some [("abc".toList, "abc".toList)] ∧
    ("abc".toList : List Char) ≠ [] := by
  refine ⟨by decide, by decide⟩

/-- C8 (amended): a configuration line containing no `=` whose first character is
not `#` is tolerated silently (parsing does not fail), and the entry stored for
it has the entire line as key and the entire line as value: `find` yields npos,
`npos + 1` wraps to 0 in size_t arithmetic, so `substr(0)` returns the whole
line. -/
theorem spec_C8_no_equals_line (kvs : List (List Char × List Char))
    (line : List Char)
    (hne : '=' ∉ line) (hhash : cppIndex line 0 ≠ some '#')
    (hlen : line.length < NPOS) :
    parseLine kvs line = some (mapInsert kvs line line) := by
  have hfind : strFind line '=' = NPOS := strFind_of_not_mem line '=' hne
  have hhead : ¬(line.headD (Char.ofNat 0) = '#') := by
    intro hh
    exact hhash (by rw [cppIndex_zero, hh])
  have hsub1 : substr line 0 NPOS = some line := by
    unfold substr
    rw [if_neg (by omega)]
    simp [List.take_of_length_le (le_of_lt hlen)]
  have hwrap : (NPOS + 1) % 2 ^ 64 = 0 := by decide
  unfold parseLine
  rw [cppIndex_zero]
  dsimp only
  rw [if_neg hhead, hfind, hwrap, hsub1]

/-- C9: the startup absolute-path classification of spirv_output_path in main
performs an out-of-bounds read for the empty value — which is exactly the
documented default when the key is missing, as the third conjunct certifies —
because after `s[0]` compares unequal to `/` and `\` the access `s[1]` has
position 1 > size 0 (undefined behavior, modelled as `none`); for a length-1
value every access is in bounds. -/
theorem spec_C9_out_of_bounds :
    spirvOutputPathCheck [] = none ∧
    spirvOutputPathCheck ['x'] = some true ∧
    (parseIniFile []).map Config.spirvOutputPath = some "" := by
  refine ⟨by decide, by decide, by decide⟩

/-- C10: when one of the configured shader extensions is the empty string — as
happens when its key is absent from the configuration file, which the last
conjunct certifies for vs_ext — a regular file with no extension matches the
recognized-extension set, is inserted into the watch map with its modification
time, and triggers a compile whenever the cycle is not a startup-suppressed
first cycle. -/
theorem spec_C10_empty_extension (cfg : Config) (listing : List DirEntry)
    (st : WatchLoopState) (e : DirEntry)
    (hone : cfg.vsExt = "" ∨ cfg.fsExt = "" ∨ cfg.gsExt = "" ∨ cfg.csExt = "")
    (hmem : e ∈ listing) (hnodup : (listing.map DirEntry.path).Nodup)
    (hreg : e.isRegularFile = true) (hnoext : e.ext = "")
    (hnew : mapFind st.entries e.path = none) :
    e.ext ∈ validFileExts cfg ∧
    mapFind (scanCycle cfg listing st).1.entries e.path = some e.mtime ∧
    ((st.firstIteration = false ∨ cfg.compileOnStartup = true) →
      pathCompiles (scanCycle cfg listing st).2 e.path = [e]) ∧
    (∀ lines kvs, parseIniLines lines = some kvs →
      mapFind kvs ("vs_ext".toList) = none →
      (parseIniFile lines).map Config.vsExt = some "") := by
  have hext : e.ext ∈ validFileExts cfg := by
    rw [hnoext]
    rcases hone with h0 | h0 | h0 | h0 <;> simp [validFileExts, h0]
  obtain ⟨h1, h2⟩ := foldl_at_entry cfg st.firstIteration st.recompile e listing
    (st.entries, []) hmem hnodup
  refine ⟨hext, ?_, ?_, ?_⟩
  · rw [scanCycle_entries, h1, hnew]
    simp [entryEffect, hreg, hext]
  · intro hcond
    have heff : entryEffect cfg st.firstIteration st.recompile
        (mapFind st.entries e.path) e = (some e.mtime, [e]) := by
      rw [hnew]
      simp [entryEffect, hreg, hext, hcond]
    rw [scanCycle_snd, h2, heff]
    rfl
  · intro lines kvs hpl hnone
    simp [parseIniFile, hpl, mapGetD]
    have hnone' : mapFind kvs ['v', 's', '_', 'e', 'x', 't'] = none := hnone
    rw [hnone']
    rfl

/-- A concrete configuration used by the example-based theorems and witnesses. -/
def cfgEx : Config :=
  { compileOnStartup := false
    useGoogleSPIRV := false
    glslLangValidatorPath := "glslangValidator"
    glslcPath := "glslc"
    shaderSourcePath := "shaders"
    spirvOutputPath := "out"
    spirvExt := ".spv"
    vsExt := ".vert"
    fsExt := ".frag"
    gsExt := ".geom"
    csExt := ".comp" }

/-- A watched vertex-shader file used by the witnesses. -/
def aVert : DirEntry :=
  { path := "w/a.vert", stem := "a", ext := ".vert", isRegularFile := true,
    mtime := 10 }

/-- A file with an unrecognized extension used by the witnesses. -/
def bTxt : DirEntry :=
  { path := "w/b.txt", stem := "b", ext := ".txt", isRegularFile := true,
    mtime := 10 }

/-- The example configuration with an empty vertex-shader extension. -/
def cfgNoVs : Config := { cfgEx with vsExt := "" }

/-- An extensionless regular file used by the C10 witness. -/
def mkFile : DirEntry :=
  { path := "w/Makefile", stem := "Makefile", ext := "", isRegularFile := true,
    mtime := 7 }

/-- C1: the directory actually scanned is the process's current working
directory captured in main, not the configured shader_source_path: with working
directory "/home/user/project" and shader_source_path "shaders", the watcher
thread is handed "/home/user/project". -/
theorem spec_C1_watched_path :
    watchedPath "/home/user/project" cfgEx = "/home/user/project" ∧
    cfgEx.shaderSourcePath = "shaders" ∧
    watchedPath "/home/user/project" cfgEx ≠ cfgEx.shaderSourcePath := by
  refine ⟨rfl, rfl, by decide⟩

/-- C2: the AlternateCompiler command line matches the specified form exactly,
but the PrimaryCompiler command line contains " - V " — a stray space splitting
the -V flag — so it differs from the specified
`<validatorPath> -V <basename><ext> -o <outputPath>/<basename><ext><outputExt>`
form. -/
theorem spec_C2_command_line :
    compileCommand cfgEx "basic" ".vert" =
      "glslangValidator - V basic.vert -o out/basic.vert.spv" ∧
    compileCommand cfgEx "basic" ".vert" ≠
      specPrimaryCommand cfgEx "basic" ".vert" ∧
    compileCommand { cfgEx with useGoogleSPIRV := true } "basic" ".vert" =
      specAlternateCommand { cfgEx with useGoogleSPIRV := true } "basic" ".vert" := by
  refine ⟨by decide, by decide, by decide⟩

/-! ### Witnesses -/

theorem spec_C3_witness :
    mapFind (scanCycle cfgEx [aVert]
      ⟨[("w/a.vert", 5)], false, false⟩).1.entries "w/a.vert" = some 10 ∧
    pathCompiles (scanCycle cfgEx [aVert]
      ⟨[("w/a.vert", 5)], false, false⟩).2 "w/a.vert" = [aVert] := by
  have h := spec_C3_tracked_file cfgEx [aVert] ⟨[("w/a.vert", 5)], false, false⟩
    aVert 5 (by decide) (by decide) (by decide) (by decide) (by decide)
  exact h.1 (by decide)

theorem spec_C4_witness :
    mapFind (scanCycle cfgEx [aVert]
      ⟨[], true, false⟩).1.entries "w/a.vert" = some 10 ∧
    pathCompiles (scanCycle cfgEx [aVert] ⟨[], true, false⟩).2 "w/a.vert" = [] := by
  have h := spec_C4_first_cycle cfgEx [aVert] ⟨[], true, false⟩ aVert
    (by decide) (by decide) (by decide) (by decide) (by decide) (by decide)
  exact ⟨h.1, h.2.1 (by decide)⟩

theorem spec_C5_witness :
    pathCompiles (scanCycle cfgEx [aVert]
      ⟨[("w/a.vert", 10)], false, true⟩).2 "w/a.vert" = [aVert] ∧
    (scanCycle cfgEx [aVert] ⟨[("w/a.vert", 10)], false, true⟩).1.recompile = false ∧
    (scanCycle cfgEx [aVert] ⟨[("w/a.vert", 10)], false, true⟩).1.firstIteration = false := by
  have h := spec_C5_force_recompile cfgEx [aVert] ⟨[("w/a.vert", 10)], false, true⟩
    (by decide) (by decide)
  exact ⟨h.1 aVert (by decide) (by decide) (by decide) ⟨10, by decide⟩, h.2.1, h.2.2⟩

theorem spec_C6_witness :
    (scanCycle cfgEx [aVert] (scanCycle cfgEx [aVert] ⟨[], true, false⟩).1).2 = [] :=
  spec_C6_idempotent cfgEx [aVert] ⟨[], true, false⟩ (by decide)

theorem spec_C7_witness :
    mapFind (scanCycle cfgEx [bTxt] ⟨[], false, true⟩).1.entries "w/b.txt" = none ∧
    pathCompiles (scanCycle cfgEx [bTxt] ⟨[], false, true⟩).2 "w/b.txt" = [] := by
  have h := spec_C7_unrecognized_ext cfgEx [bTxt] ⟨[], false, true⟩ "w/b.txt"
    (by decide)
  exact ⟨h.1, h.2⟩

theorem spec_C8_witness :
    parseLine [] ("abc".toList) =
      some (mapInsert [] ("abc".toList) ("abc".toList)) :=
  spec_C8_no_equals_line [] ("abc".toList) (by decide) (by decide) (by decide)

theorem spec_C10_witness :
    (("" : String) ∈ validFileExts cfgNoVs) ∧
    mapFind (scanCycle cfgNoVs [mkFile]
      ⟨[], false, false⟩).1.entries "w/Makefile" = some 7 ∧
    pathCompiles (scanCycle cfgNoVs [mkFile] ⟨[], false, false⟩).2 "w/Makefile" =
      [mkFile] := by
  have h := spec_C10_empty_extension cfgNoVs [mkFile] ⟨[], false, false⟩ mkFile
    (Or.inl rfl) (by decide) (by decide) (by decide) (by decide) (by decide)
  exact ⟨h.1, h.2.1, h.2.2.1 (Or.inl rfl)⟩

end ShaderAssist
